import Mathlib

/-!
Shallow embedding of `SevenSegment/SevenSegment.py`, a seven-segment display
model with an ASCII renderer, together with proofs of its specification.

Modelling conventions:
* Python strings are modelled as `List Char`.
* The Python `Dict[SegmentName, Segment]` is modelled as a partial map
  `SegmentName → Option Segment`; a `KeyError` on a missing key surfaces as
  `Option` (`MakeDigitASCII` returns `none` when a required key is absent).
* `str.splitlines` is modelled by `splitlines` below, with Python's full set
  of recognised line boundaries.
* `ClearDisplay` mutates the display in place in Python; it is modelled as a
  state transformer `Display → Display`.
-/

namespace SevenSegment

/-- The seven segment positions of a digit (Python `SegmentName` enum). -/
inductive SegmentName where
  | Top
  | TopRight
  | BottomRight
  | Bottom
  | BottomLeft
  | TopLeft
  | Middle
deriving DecidableEq, Repr

/-- One of 7 segments in a display digit (Python `Segment` dataclass). -/
structure Segment where
  isOn : Bool
deriving DecidableEq, Repr

/-- One digit with up to 7 segments (Python `Digit` dataclass); the segment
dictionary is modelled as a partial map from names to segments. -/
structure Digit where
  color : List Char
  segments : SegmentName → Option Segment

/-- All digits combined form the display (Python `Display` dataclass). -/
structure Display where
  digits : List Digit

/-- Turn off all segments in every digit of the display
(Python `ClearDisplay`, in-place mutation modelled functionally). -/
def ClearDisplay (display : Display) : Display :=
  { digits := display.digits.map fun digit =>
      { digit with segments := fun name =>
          (digit.segments name).map fun segment => { segment with isOn := false } } }

/-- The characters Python `str.splitlines` treats as line boundaries:
`\n`, `\r`, `\v`, `\f`, `\x1c`, `\x1d`, `\x1e`, `\x85`, ` `, ` `. -/
def isLineBreak (c : Char) : Bool :=
  c = '\n' || c = '\r' || c = Char.ofNat 0x0B || c = Char.ofNat 0x0C ||
  c = Char.ofNat 0x1C || c = Char.ofNat 0x1D || c = Char.ofNat 0x1E ||
  c = Char.ofNat 0x85 || c = Char.ofNat 0x2028 || c = Char.ofNat 0x2029

/-- Python `str.splitlines`: split at line boundaries (with `\r\n` counting as
one boundary), never producing a trailing empty line. -/
def splitlines : List Char → List (List Char)
  | [] => []
  | c :: cs =>
    if c = '\r' then
      match cs with
      | '\n' :: rest => [] :: splitlines rest
      | other => [] :: splitlines other
    else if isLineBreak c then
      [] :: splitlines cs
    else
      match splitlines cs with
      | [] => [[c]]
      | l :: ls => (c :: l) :: ls

/-- Python `sep.join(parts)`. -/
def joinWith (sep : List Char) : List (List Char) → List Char
  | [] => []
  | [part] => part
  | part :: parts => part ++ sep ++ joinWith sep parts

/-- ASCII for a horizontal segment row, width 7, padded 1 on each side
(Python `_DrawHorizontalSegment`). -/
def DrawHorizontalSegment (isOn : Bool) : List Char :=
  " ".data ++ (if isOn then "*****".data else "     ".data) ++ " ".data

/-- ASCII for a vertical pair row: left edge, 5 spaces, right edge
(Python `_DrawVerticalSegment`). -/
def DrawVerticalSegment (is_left_on : Bool) (is_right_on : Bool) : List Char :=
  (if is_left_on then "*".data else " ".data) ++ "     ".data ++
    (if is_right_on then "*".data else " ".data)

/-- The 7-row ASCII representation of a single seven-segment digit
(Python `MakeDigitASCII`); `none` models the `KeyError` raised when a
required segment key is missing from the dictionary. -/
def MakeDigitASCII (digit : Digit) : Option (List Char) :=
  match digit.segments SegmentName.Top, digit.segments SegmentName.TopRight,
      digit.segments SegmentName.BottomRight, digit.segments SegmentName.Bottom,
      digit.segments SegmentName.BottomLeft, digit.segments SegmentName.TopLeft,
      digit.segments SegmentName.Middle with
  | some top, some topRight, some bottomRight, some bottom,
      some bottomLeft, some topLeft, some middle =>
    some (joinWith "\n".data [
      DrawHorizontalSegment top.isOn,
      DrawVerticalSegment topLeft.isOn topRight.isOn,
      DrawVerticalSegment topLeft.isOn topRight.isOn,
      DrawHorizontalSegment middle.isOn,
      DrawVerticalSegment bottomLeft.isOn bottomRight.isOn,
      DrawVerticalSegment bottomLeft.isOn bottomRight.isOn,
      DrawHorizontalSegment bottom.isOn])
  | _, _, _, _, _, _, _ => none

/-- The sentinel error string returned by `CombineDigitASCIIStrings` on a
row-count mismatch. -/
def errorSentinel : List Char :=
  "Erorr--not every line is same length wtf?".data

/-- Combine a list of single-digit ASCII strings horizontally
(Python `CombineDigitASCIIStrings`); the early `return` of the sentinel on
the first row-count mismatch is expressed with an `all` check. -/
def CombineDigitASCIIStrings (digit_ascii_list : List (List Char))
    (gapSpaces : Nat) : List Char :=
  match digit_ascii_list with
  | [] => []
  | first :: rest =>
    if ((first :: rest).map splitlines).all
        (fun rows => rows.length == (splitlines first).length) then
      joinWith "\n".data ((List.range (splitlines first).length).map fun row_index =>
        joinWith (List.replicate gapSpaces ' ')
          (((first :: rest).map splitlines).map fun rows => rows.getD row_index []))
    else
      errorSentinel

/-- Multi-digit ASCII string, rendering each digit and stitching rows
side-by-side (Python `MakeDigitsASCII`); `none` models a `KeyError` raised
while rendering any digit. -/
def MakeDigitsASCII (digits : List Digit) (gapSpaces : Nat) : Option (List Char) :=
  (digits.mapM MakeDigitASCII).map fun digit_ascii_list =>
    CombineDigitASCIIStrings digit_ascii_list gapSpaces

/-- A line contains no character `splitlines` recognises as a boundary. -/
def noBreak (l : List Char) : Bool :=
  l.all fun c => !(isLineBreak c)

/-- A digit's segment dictionary contains all seven required keys. -/
def WellFormed (d : Digit) : Prop :=
  ∀ n : SegmentName, (d.segments n).isSome

/-! ### Lemmas about `splitlines` and `joinWith` -/

set_option maxHeartbeats 1000000 in
theorem splitlines_cons_break (c : Char) (cs : List Char)
    (hc : isLineBreak c = true) (hr : c ≠ '\r') :
    splitlines (c :: cs) = [] :: splitlines cs := by
  rw [splitlines.eq_def]
  simp only []
  rw [if_neg hr, if_pos hc]

set_option maxHeartbeats 1000000 in
theorem splitlines_cons_not_break (c : Char) (cs : List Char)
    (hc : isLineBreak c = false) :
    splitlines (c :: cs) =
      match splitlines cs with
      | [] => [[c]]
      | l :: ls => (c :: l) :: ls := by
  have hr : c ≠ '\r' := by
    intro h
    rw [h] at hc
    simp [isLineBreak] at hc
  rw [splitlines.eq_def]
  simp only []
  rw [if_neg hr, if_neg (by simp [hc])]

theorem splitlines_line_append (l s : List Char) (hl : noBreak l = true) :
    splitlines (l ++ '\n' :: s) = l :: splitlines s := by
  induction l with
  | nil =>
    simpa using splitlines_cons_break '\n' s (by decide) (by decide)
  | cons c l ih =>
    have hc : isLineBreak c = false := by
      simp [noBreak] at hl
      simp [hl.1]
    have hl' : noBreak l = true := by
      simp [noBreak] at hl ⊢
      exact hl.2
    rw [List.cons_append, splitlines_cons_not_break c _ hc, ih hl']

theorem splitlines_no_break (l : List Char) (hl : noBreak l = true)
    (hne : l ≠ []) : splitlines l = [l] := by
  induction l with
  | nil => exact absurd rfl hne
  | cons c cs ih =>
    have hc : isLineBreak c = false := by
      simp [noBreak] at hl
      simp [hl.1]
    have hcs : noBreak cs = true := by
      simp [noBreak] at hl ⊢
      exact hl.2
    rw [splitlines_cons_not_break c cs hc]
    cases hempty : cs with
    | nil => simp [splitlines]
    | cons d ds =>
      rw [← hempty, ih hcs (by simp [hempty])]

theorem getLastD_cons_cons (a b : List Char) (m : List (List Char)) :
    (a :: b :: m).getLastD [] = (b :: m).getLastD [] := by
  simp [List.getLastD_cons]

theorem getLastD_mem (l : List (List Char)) (hne : l ≠ []) :
    l.getLastD [] ∈ l := by
  induction l with
  | nil => exact absurd rfl hne
  | cons a l ih =>
    cases l with
    | nil => simp [List.getLastD]
    | cons b m =>
      rw [getLastD_cons_cons]
      exact List.mem_cons_of_mem a (ih (by simp))

theorem splitlines_joinWith (rows : List (List Char))
    (hbr : ∀ r ∈ rows, noBreak r = true)
    (hlast : rows.getLastD [] ≠ []) :
    splitlines (joinWith "\n".data rows) = rows := by
  induction rows with
  | nil => exact absurd rfl hlast
  | cons r rows ih =>
    cases rows with
    | nil =>
      have hj : joinWith "\n".data [r] = r := rfl
      rw [hj]
      exact splitlines_no_break r (hbr r (by simp))
        (by simpa [List.getLastD] using hlast)
    | cons r2 rest =>
      have hjoin : joinWith "\n".data (r :: r2 :: rest) =
          r ++ '\n' :: joinWith "\n".data (r2 :: rest) := by
        show r ++ "\n".data ++ joinWith "\n".data (r2 :: rest) = _
        simp
      rw [hjoin, splitlines_line_append _ _ (hbr r (by simp)),
        ih (fun x hx => hbr x (by simp [hx]))
          (by rwa [getLastD_cons_cons] at hlast)]

theorem joinWith_pair (sep a b : List Char) :
    joinWith sep [a, b] = a ++ sep ++ b := rfl

theorem map_getD_range (l : List (List Char)) :
    (List.range l.length).map (fun i => l.getD i []) = l := by
  induction l with
  | nil => rfl
  | cons x xs ih =>
    rw [List.length_cons, List.range_succ_eq_map, List.map_cons, List.map_map]
    exact congrArg (x :: ·) ih

/-! ### Shape lemmas for the drawing helpers -/

theorem DrawHorizontalSegment_length (b : Bool) :
    (DrawHorizontalSegment b).length = 7 := by cases b <;> rfl

theorem DrawVerticalSegment_length (l r : Bool) :
    (DrawVerticalSegment l r).length = 7 := by cases l <;> cases r <;> rfl

theorem DrawHorizontalSegment_noBreak (b : Bool) :
    noBreak (DrawHorizontalSegment b) = true := by cases b <;> decide

theorem DrawVerticalSegment_noBreak (l r : Bool) :
    noBreak (DrawVerticalSegment l r) = true := by cases l <;> cases r <;> decide

theorem noBreak_append (a b : List Char) :
    noBreak (a ++ b) = (noBreak a && noBreak b) := by
  simp [noBreak, List.all_append]

theorem getD_mem_of_lt (l : List (List Char)) (i : Nat) (h : i < l.length) :
    l.getD i [] ∈ l := by
  rw [List.getD_eq_getElem l [] h]
  exact List.getElem_mem h

/-! ### Evaluation lemmas for `CombineDigitASCIIStrings` -/

theorem Combine_eq_sentinel (first : List Char) (rest : List (List Char))
    (g : Nat)
    (h : ∃ b ∈ first :: rest, (splitlines b).length ≠ (splitlines first).length) :
    CombineDigitASCIIStrings (first :: rest) g = errorSentinel := by
  simp only [CombineDigitASCIIStrings]
  rw [if_neg]
  intro hall
  obtain ⟨b, hb, hne⟩ := h
  rw [List.all_eq_true] at hall
  exact hne (by simpa using hall (splitlines b) (List.mem_map_of_mem _ hb))

theorem Combine_eq_join (first : List Char) (rest : List (List Char))
    (g : Nat)
    (h : ∀ b ∈ first :: rest, (splitlines b).length = (splitlines first).length) :
    CombineDigitASCIIStrings (first :: rest) g =
      joinWith "\n".data ((List.range (splitlines first).length).map fun i =>
        joinWith (List.replicate g ' ')
          ((first :: rest).map fun b => (splitlines b).getD i [])) := by
  simp only [CombineDigitASCIIStrings]
  rw [if_pos]
  · simp only [List.map_map]
    rfl
  · rw [List.all_eq_true]
    intro rows hrows
    rw [List.mem_map] at hrows
    obtain ⟨b, hb, rfl⟩ := hrows
    simpa using h b hb

/-! ### Shape of a rendered digit -/

theorem MakeDigitASCII_eq (d : Digit) (h : WellFormed d) :
    ∃ rows, MakeDigitASCII d = some (joinWith "\n".data rows) ∧
      splitlines (joinWith "\n".data rows) = rows ∧
      rows.length = 7 ∧ ∀ r ∈ rows, noBreak r = true ∧ r.length = 7 := by
  obtain ⟨top, htop⟩ := Option.isSome_iff_exists.mp (h SegmentName.Top)
  obtain ⟨topRight, htr⟩ := Option.isSome_iff_exists.mp (h SegmentName.TopRight)
  obtain ⟨bottomRight, hbr2⟩ := Option.isSome_iff_exists.mp (h SegmentName.BottomRight)
  obtain ⟨bottom, hbo⟩ := Option.isSome_iff_exists.mp (h SegmentName.Bottom)
  obtain ⟨bottomLeft, hbl⟩ := Option.isSome_iff_exists.mp (h SegmentName.BottomLeft)
  obtain ⟨topLeft, htl⟩ := Option.isSome_iff_exists.mp (h SegmentName.TopLeft)
  obtain ⟨middle, hmi⟩ := Option.isSome_iff_exists.mp (h SegmentName.Middle)
  have hmem : ∀ r ∈ [DrawHorizontalSegment top.isOn,
      DrawVerticalSegment topLeft.isOn topRight.isOn,
      DrawVerticalSegment topLeft.isOn topRight.isOn,
      DrawHorizontalSegment middle.isOn,
      DrawVerticalSegment bottomLeft.isOn bottomRight.isOn,
      DrawVerticalSegment bottomLeft.isOn bottomRight.isOn,
      DrawHorizontalSegment bottom.isOn], noBreak r = true ∧ r.length = 7 := by
    intro r hr
    simp only [List.mem_cons, List.not_mem_nil, or_false] at hr
    rcases hr with rfl | rfl | rfl | rfl | rfl | rfl | rfl <;>
      exact ⟨by first
          | exact DrawHorizontalSegment_noBreak _
          | exact DrawVerticalSegment_noBreak _ _,
        by first
          | exact DrawHorizontalSegment_length _
          | exact DrawVerticalSegment_length _ _⟩
  refine ⟨[DrawHorizontalSegment top.isOn,
    DrawVerticalSegment topLeft.isOn topRight.isOn,
    DrawVerticalSegment topLeft.isOn topRight.isOn,
    DrawHorizontalSegment middle.isOn,
    DrawVerticalSegment bottomLeft.isOn bottomRight.isOn,
    DrawVerticalSegment bottomLeft.isOn bottomRight.isOn,
    DrawHorizontalSegment bottom.isOn], ?_, ?_, rfl, hmem⟩
  · simp only [MakeDigitASCII, htop, htr, hbr2, hbo, hbl, htl, hmi]
  · apply splitlines_joinWith _ (fun r hr => (hmem r hr).1)
    have hred : ([DrawHorizontalSegment top.isOn,
        DrawVerticalSegment topLeft.isOn topRight.isOn,
        DrawVerticalSegment topLeft.isOn topRight.isOn,
        DrawHorizontalSegment middle.isOn,
        DrawVerticalSegment bottomLeft.isOn bottomRight.isOn,
        DrawVerticalSegment bottomLeft.isOn bottomRight.isOn,
        DrawHorizontalSegment bottom.isOn] : List (List Char)).getLastD [] =
        DrawHorizontalSegment bottom.isOn := rfl
    rw [hred]
    intro hcon
    have hlen := DrawHorizontalSegment_length bottom.isOn
    rw [hcon] at hlen
    simp at hlen

/-! ### Concrete digits and displays used as evaluation inputs -/

/-- A digit with all seven keys present and every segment on. -/
def exampleDigit : Digit :=
  { color := "white".data, segments := fun _ => some { isOn := true } }

/-- The digit of the concrete rendering scenario: `Top` and `Bottom` on,
all other segments off, all seven keys present. -/
def topBottomDigit : Digit :=
  { color := "white".data,
    segments := fun n =>
      some { isOn := decide (n = SegmentName.Top) || decide (n = SegmentName.Bottom) } }

/-- A display with no digits. -/
def emptyDisplay : Display := { digits := [] }

/-- A one-digit display whose segments are all on. -/
def exampleDisplay : Display := { digits := [exampleDigit] }

/-- The digit `exampleDigit` after clearing. -/
def clearedExampleDigit : Digit :=
  { exampleDigit with segments := fun name =>
      (exampleDigit.segments name).map fun segment => { segment with isOn := false } }

/-! ### The claims -/

/-- C1: for every `Digit` whose segment map contains all seven required keys,
`MakeDigitASCII` returns a string that splits into exactly 7 rows, each
exactly 7 characters long. -/
theorem MakeDigitASCII_seven_by_seven (d : Digit) (h : WellFormed d) :
    ∃ s, MakeDigitASCII d = some s ∧ (splitlines s).length = 7 ∧
      ∀ r ∈ splitlines s, r.length = 7 := by
  obtain ⟨rows, hmk, hsp, hlen, hprops⟩ := MakeDigitASCII_eq d h
  exact ⟨_, hmk, by rw [hsp, hlen], fun r hr => (hprops r (hsp ▸ hr)).2⟩

/-- Witness for C1 at the all-on digit. -/
theorem MakeDigitASCII_seven_by_seven_witness :
    (splitlines ((MakeDigitASCII exampleDigit).getD [])).length = 7 := by
  obtain ⟨s, hmk, hlen, _⟩ :=
    MakeDigitASCII_seven_by_seven exampleDigit (fun _ => rfl)
  rw [hmk]
  exact hlen

/-- C4: a horizontal segment row is one space, five `*` (on) or five spaces
(off), then one space; a vertical pair row is the left edge character, five
spaces, then the right edge character. -/
theorem Draw_segment_row_contracts (b l r : Bool) :
    DrawHorizontalSegment b =
      [' '] ++ List.replicate 5 (if b then '*' else ' ') ++ [' '] ∧
    DrawVerticalSegment l r =
      [if l then '*' else ' '] ++ List.replicate 5 ' ' ++
        [if r then '*' else ' '] := by
  cases b <;> cases l <;> cases r <;> exact ⟨by decide, by decide⟩

/-- C5: the digit with `Top` and `Bottom` on and all else off renders to the
7-row glyph with `" ***** "` as rows 1 and 7 and blank rows elsewhere. -/
theorem MakeDigitASCII_topBottom :
    MakeDigitASCII topBottomDigit =
      some " ***** \n       \n       \n       \n       \n       \n ***** ".data ∧
    splitlines " ***** \n       \n       \n       \n       \n       \n ***** ".data =
      [" ***** ".data, "       ".data, "       ".data, "       ".data,
        "       ".data, "       ".data, " ***** ".data] := by
  exact ⟨by decide, by decide⟩

/-- C7: `MakeDigitsASCII` on the empty digit list returns the empty string
for every gap, and `CombineDigitASCIIStrings` on the empty block list
returns the empty string. -/
theorem MakeDigitsASCII_empty (gapSpaces : Nat) :
    MakeDigitsASCII [] gapSpaces = some [] ∧
    CombineDigitASCIIStrings [] gapSpaces = [] :=
  ⟨rfl, rfl⟩

/-- C6: after `ClearDisplay` every segment of every digit is off, and on a
display whose digits have no stored segments at all (in particular a display
with no digits) it is a no-op. -/
theorem ClearDisplay_all_off (display : Display) :
    (∀ d ∈ (ClearDisplay display).digits, ∀ n s,
      d.segments n = some s → s.isOn = false) ∧
    ((∀ d ∈ display.digits, ∀ n, d.segments n = none) →
      ClearDisplay display = display) := by
  constructor
  · intro d hd n s hs
    simp only [ClearDisplay, List.mem_map] at hd
    obtain ⟨d0, _, rfl⟩ := hd
    simp only at hs
    cases h0 : d0.segments n with
    | none => rw [h0] at hs; simp at hs
    | some seg =>
      rw [h0] at hs
      simp only [Option.map_some'] at hs
      rw [← Option.some.inj hs]
  · intro hnone
    cases display with
    | mk digits =>
      simp only [ClearDisplay]
      congr 1
      have hid : ∀ d ∈ digits,
          ({ d with segments := fun name =>
              (d.segments name).map fun segment =>
                { segment with isOn := false } } : Digit) = d := by
        intro d hd
        cases d with
        | mk color segments =>
          simp only
          congr 1
          funext n
          rw [show segments n = none from hnone ⟨color, segments⟩ hd n]
          rfl
      calc digits.map (fun digit =>
            { digit with segments := fun name =>
                (digit.segments name).map fun segment =>
                  { segment with isOn := false } })
          = digits.map id := List.map_congr_left hid
        _ = digits := List.map_id digits

/-- Witness for C6: a cleared one-digit display has its `Top` segment off,
and clearing the empty display is a no-op. -/
theorem ClearDisplay_all_off_witness :
    (Segment.mk false).isOn = false ∧ ClearDisplay emptyDisplay = emptyDisplay :=
  ⟨(ClearDisplay_all_off exampleDisplay).1 clearedExampleDigit
      (List.mem_singleton.mpr rfl) SegmentName.Top (Segment.mk false) rfl,
    (ClearDisplay_all_off emptyDisplay).2 (by simp [emptyDisplay])⟩

/-- C8: `ClearDisplay` is idempotent. -/
theorem ClearDisplay_idempotent (display : Display) :
    ClearDisplay (ClearDisplay display) = ClearDisplay display := by
  cases display with
  | mk digits =>
    simp only [ClearDisplay, List.map_map]
    congr 1
    apply List.map_congr_left
    intro d _
    cases d with
    | mk color segments =>
      simp only [Function.comp]
      congr 1
      funext n
      cases segments n <;> rfl

/-- C2: `CombineDigitASCIIStrings` returns the sentinel error string exactly
when some block splits into a different number of rows than the first block;
otherwise it returns the rows of all blocks joined side by side with the gap
and rejoined with newlines. -/
theorem Combine_row_count_validation (first : List Char)
    (rest : List (List Char)) (g : Nat) :
    ((∃ b ∈ first :: rest, (splitlines b).length ≠ (splitlines first).length) →
      CombineDigitASCIIStrings (first :: rest) g = errorSentinel) ∧
    ((∀ b ∈ first :: rest, (splitlines b).length = (splitlines first).length) →
      CombineDigitASCIIStrings (first :: rest) g =
        joinWith "\n".data ((List.range (splitlines first).length).map fun i =>
          joinWith (List.replicate g ' ')
            ((first :: rest).map fun b => (splitlines b).getD i []))) :=
  ⟨Combine_eq_sentinel first rest g, Combine_eq_join first rest g⟩

/-- Witness for C2: a 2-row block next to a 1-row block yields the sentinel;
two 2-row blocks yield the stitched result. -/
theorem Combine_row_count_validation_witness :
    CombineDigitASCIIStrings ["ab\ncd".data, "x".data] 2 = errorSentinel ∧
    CombineDigitASCIIStrings ["ab\ncd".data, "xy\nzw".data] 2 =
      "ab  xy\ncd  zw".data := by
  constructor
  · exact (Combine_row_count_validation "ab\ncd".data ["x".data] 2).1
      ⟨"x".data, by decide, by decide⟩
  · rw [(Combine_row_count_validation "ab\ncd".data ["xy\nzw".data] 2).2
      (by decide)]
    decide

/-- C3: rendering two well-formed digits with a 2-space gap yields 7 rows,
row `i` being row `i` of the first glyph, two spaces, then row `i` of the
second glyph. -/
theorem MakeDigitsASCII_pair (d1 d2 : Digit)
    (h1 : WellFormed d1) (h2 : WellFormed d2) :
    ∃ s r1 r2, MakeDigitASCII d1 = some r1 ∧ MakeDigitASCII d2 = some r2 ∧
      MakeDigitsASCII [d1, d2] 2 = some s ∧ (splitlines s).length = 7 ∧
      ∀ i < 7, (splitlines s).getD i [] =
        (splitlines r1).getD i [] ++ [' ', ' '] ++ (splitlines r2).getD i [] := by
  obtain ⟨rows1, hmk1, hsp1, hlen1, hp1⟩ := MakeDigitASCII_eq d1 h1
  obtain ⟨rows2, hmk2, hsp2, hlen2, hp2⟩ := MakeDigitASCII_eq d2 h2
  have hcprops : ∀ r ∈ (List.range 7).map
      (fun i => rows1.getD i [] ++ [' ', ' '] ++ rows2.getD i []),
      noBreak r = true ∧ r ≠ [] := by
    intro r hr
    rw [List.mem_map] at hr
    obtain ⟨i, hi, rfl⟩ := hr
    rw [List.mem_range] at hi
    have hm1 : rows1.getD i [] ∈ rows1 :=
      getD_mem_of_lt rows1 i (by rw [hlen1]; exact hi)
    have hm2 : rows2.getD i [] ∈ rows2 :=
      getD_mem_of_lt rows2 i (by rw [hlen2]; exact hi)
    refine ⟨?_, by simp⟩
    rw [noBreak_append, noBreak_append, (hp1 _ hm1).1, (hp2 _ hm2).1]
    decide
  have hsplit : splitlines (joinWith "\n".data ((List.range 7).map
      (fun i => rows1.getD i [] ++ [' ', ' '] ++ rows2.getD i []))) =
      (List.range 7).map
        (fun i => rows1.getD i [] ++ [' ', ' '] ++ rows2.getD i []) := by
    apply splitlines_joinWith _ (fun r hr => (hcprops r hr).1)
    exact (hcprops _ (getLastD_mem _ (by simp))).2
  have hmapM : List.mapM MakeDigitASCII [d1, d2] =
      some [joinWith "\n".data rows1, joinWith "\n".data rows2] := by
    rw [List.mapM_cons, List.mapM_cons, List.mapM_nil, hmk1, hmk2]
    rfl
  have hcomb : CombineDigitASCIIStrings
      [joinWith "\n".data rows1, joinWith "\n".data rows2] 2 =
      joinWith "\n".data ((List.range 7).map
        (fun i => rows1.getD i [] ++ [' ', ' '] ++ rows2.getD i [])) := by
    rw [Combine_eq_join _ _ 2 ?hall]
    case hall =>
      intro b hb
      simp only [List.mem_cons, List.not_mem_nil, or_false] at hb
      rcases hb with rfl | rfl
      · rfl
      · rw [hsp1, hsp2, hlen1, hlen2]
    congr 1
    rw [hsp1, hlen1]
    apply List.map_congr_left
    intro i _
    simp only [List.map_cons, List.map_nil, hsp1, hsp2]
    rfl
  refine ⟨joinWith "\n".data ((List.range 7).map
      (fun i => rows1.getD i [] ++ [' ', ' '] ++ rows2.getD i [])),
    joinWith "\n".data rows1, joinWith "\n".data rows2, hmk1, hmk2, ?_, ?_, ?_⟩
  · simp only [MakeDigitsASCII]
    rw [hmapM, Option.map_some', hcomb]
  · rw [hsplit]
    simp
  · intro i hi
    rw [hsplit, hsp1, hsp2]
    have hilen : i < ((List.range 7).map
        (fun i => rows1.getD i [] ++ [' ', ' '] ++ rows2.getD i [])).length := by
      simp [hi]
    rw [List.getD_eq_getElem _ _ hilen, List.getElem_map, List.getElem_range]

/-- Witness for C3 at two concrete well-formed digits. -/
theorem MakeDigitsASCII_pair_witness :
    (splitlines ((MakeDigitsASCII [topBottomDigit, exampleDigit] 2).getD
      [])).length = 7 := by
  obtain ⟨s, r1, r2, _, _, hmks, hlen, _⟩ :=
    MakeDigitsASCII_pair topBottomDigit exampleDigit (fun _ => rfl) (fun _ => rfl)
  rw [hmks]
  exact hlen

/-- A line contains neither a newline nor a carriage return. -/
def noNewlineCR (l : List Char) : Bool :=
  l.all fun c => !(c = '\n' || c = '\r')

/-- C10 is false as stated: `"a\n"` is the newline-join of the non-empty
line list `["a", ""]`, no line of which contains a newline or carriage
return, yet `CombineDigitASCIIStrings` does not return it unchanged; a line
holding a vertical tab (also allowed by the claim) is split as well. -/
theorem Combine_single_block_not_identity :
    "a\n".data = joinWith "\n".data [['a'], []] ∧
    noNewlineCR ['a'] = true ∧ noNewlineCR [] = true ∧
    CombineDigitASCIIStrings ["a\n".data] 2 ≠ "a\n".data ∧
    ['a', Char.ofNat 0x0B, 'b'] =
      joinWith "\n".data [['a', Char.ofNat 0x0B, 'b']] ∧
    noNewlineCR ['a', Char.ofNat 0x0B, 'b'] = true ∧
    CombineDigitASCIIStrings [['a', Char.ofNat 0x0B, 'b']] 2 ≠
      ['a', Char.ofNat 0x0B, 'b'] := by
  decide

/-- C10 (amended): a single block that is the newline-join of a non-empty
list of lines, none containing any character `splitlines` treats as a line
boundary, with a non-empty last line, is returned unchanged for every gap. -/
theorem Combine_single_block_identity (b : List Char)
    (lines : List (List Char)) (g : Nat)
    (hb : b = joinWith "\n".data lines)
    (hnb : ∀ l ∈ lines, noBreak l = true)
    (hlast : lines.getLastD [] ≠ []) :
    CombineDigitASCIIStrings [b] g = b := by
  subst hb
  have hsp : splitlines (joinWith "\n".data lines) = lines :=
    splitlines_joinWith lines hnb hlast
  rw [Combine_eq_join _ [] g (by
    intro x hx
    simp only [List.mem_singleton] at hx
    rw [hx])]
  simp only [List.map_cons, List.map_nil, hsp]
  have hrows : (List.range lines.length).map (fun i =>
      joinWith (List.replicate g ' ') [lines.getD i []]) =
      (List.range lines.length).map (fun i => lines.getD i []) := by
    apply List.map_congr_left
    intro i _
    rfl
  rw [hrows, map_getD_range]

/-- Witness for the amended C10 at a concrete 2-line block. -/
theorem Combine_single_block_identity_witness :
    CombineDigitASCIIStrings [" ***** \n       ".data] 3 =
      " ***** \n       ".data :=
  Combine_single_block_identity " ***** \n       ".data
    [" ***** ".data, "       ".data] 3 (by decide) (by decide) (by decide)

end SevenSegment
